import Mathlib

/-!
Verification of the generic ORM data-access layer of the repository
(rest.fastapi-orm-template).

The development shallowly embeds, in Lean, the parts of the source that the
claims are about:

* the filter predicate builder `_build_where` of
  src/{{cookiecutter.project_slug}}/src/api/core/models/mixins/_base.py
  (the app variant in src/app/src/databases/rdb/mixins/base.py is the same
  chain minus the inequality branch);
* the deferred-join select builder `_build_select` and `select_by_where`
  (same file and src/app/src/databases/rdb/mixins/read.py);
* the update operations of src/app/src/databases/rdb/mixins/sync/update.py
  and src/src/api/core/models/mixins/async_/update.py;
* delete_by_where of src/src/api/core/models/mixins/async_/delete.py and
  src/src/api/core/models/mixins/sync/delete.py;
* insert of src/app/src/databases/rdb/mixins/create.py and
  src/{{cookiecutter.project_slug}}/src/api/core/models/mixins/async_/_create.py,
  together with the IntegrityError-to-domain-error translation;
* upsert of the same _create.py (PostgreSQL ON CONFLICT path);
* the identifier scheme (fn_tr__generate_pk in
  src/{{cookiecutter.project_slug}}/src/migration/functions/_base.py, and
  utils.gen_unique_id whose body is not part of the provided sources).

Rows are modelled on the concrete entity of the repository
(TaskORM: id String primary key, name String, point Int); the
timestamp columns do not participate in any claim and are elided.
Python storage-engine sessions become explicit `List Row` states; errors
become an `Err` inductive (the spec names NoResultFound "NotFound",
ValueError/EmptyValueError "EmptyInput", and the AttributeError obtained
from a failed getattr on a column name "SchemaError").
-/

/-- Column values of the modelled entity: strings or integers.
Strings are carried as character lists so that every comparison is
kernel-computable. -/
inductive Value where
  | s (v : List Char)
  | i (v : Int)
deriving DecidableEq, Repr

/-- Boolean order on `Value`: strings before integers, strings compared
lexicographically, integers numerically.  (Any total order works; the source
delegates ordering to the storage engine's column order.) -/
def vle : Value → Value → Bool
  | Value.s x, Value.s y => decide (x ≤ y)
  | Value.s _, Value.i _ => true
  | Value.i _, Value.s _ => false
  | Value.i x, Value.i y => decide (x ≤ y)

instance : LinearOrder Value where
  le x y := vle x y = true
  le_refl x := by cases x <;> simp [vle]
  le_trans x y z := by
    cases x <;> cases y <;> cases z <;> simp [vle] <;> intro h1 h2 <;> exact le_trans h1 h2
  le_antisymm x y := by
    cases x <;> cases y <;> simp [vle] <;> intro h1 h2 <;> exact le_antisymm h1 h2
  le_total x y := by
    cases x <;> cases y <;> simp [vle] <;> exact le_total _ _
  decidableLE x y := instDecidableEqBool (vle x y) true

instance valueDecLE (x y : Value) : Decidable (x ≤ y) :=
  instDecidableEqBool (vle x y) true

instance valueDecLT (x y : Value) : Decidable (x < y) :=
  decidable_of_iff (x ≤ y ∧ ¬ y ≤ x) lt_iff_le_not_le.symm

/-- A stored row of the concrete entity (TaskORM): primary key `id`,
columns `name` and `point`. -/
structure Row where
  id : String
  name : String
  point : Int
deriving DecidableEq, Repr

/-- Attribute lookup on the entity class: `getattr(cls, c)` resolved against
the mapped columns. `none` models the AttributeError raised for a column
name that is not an attribute of the class. -/
def getCol (r : Row) (c : String) : Option Value :=
  if c = "id" then some (Value.s r.id.data)
  else if c = "name" then some (Value.s r.name.data)
  else if c = "point" then some (Value.i r.point)
  else none

/-- Whether `hasattr(cls, c)` holds for the modelled entity. -/
def hasAttr (c : String) : Bool :=
  c = "id" ∨ c = "name" ∨ c = "point"

/-- The payload under the "value" key of a filter condition: a single value,
or a two-element pair (the shape `between` expects). -/
inductive FVal where
  | one (v : Value)
  | two (lo hi : Value)
deriving DecidableEq, Repr

/-- A filter-condition dict.  Each field is `none` when the corresponding
key ("column" / "op" / "value") is absent from the dict. -/
structure Cond where
  column : Option String
  op : Option String
  value : Option FVal
deriving DecidableEq, Repr

/-- A predicate appended to a statement by `_build_where`: one atom per
recognized operator. -/
inductive Atom where
  | aeq (c : String) (v : FVal)
  | ane (c : String) (v : FVal)
  | alike (c : String) (v : FVal)
  | agt (c : String) (v : FVal)
  | age (c : String) (v : FVal)
  | alt (c : String) (v : FVal)
  | ale (c : String) (v : FVal)
  | abetween (c : String) (lo hi : Value)
deriving DecidableEq, Repr

/-- The error taxonomy observed by callers.  Python exception classes map as
follows: ValueError → valueError, AttributeError → attributeError (the
spec's SchemaError), TypeError → typeError, NoResultFound → noResultFound
(the spec's NotFound), EmptyValueError → emptyValueError (the spec's
EmptyInput), IntegrityError left untranslated → integrityError, and the
translated constraint errors keep their source names. -/
inductive Err where
  | valueError (m : String)
  | schemaError (c : String)
  | typeError (m : String)
  | attributeError (m : String)
  | noResultFound
  | emptyValueError
  | integrityError
  | primaryKeyError (d : String)
  | uniqueKeyError (d : String)
  | nullConstraintError (c : String)
deriving DecidableEq, Repr

instance exceptDecEq {ε α : Type} [DecidableEq ε] [DecidableEq α] :
    DecidableEq (Except ε α)
  | Except.ok a, Except.ok b => decidable_of_iff (a = b) (by simp)
  | Except.error a, Except.error b => decidable_of_iff (a = b) (by simp)
  | Except.ok _, Except.error _ => isFalse (by simp)
  | Except.error _, Except.ok _ => isFalse (by simp)

/-- One loop iteration of `_build_where` (BaseMixin classmethod in
src/{{cookiecutter.project_slug}}/src/api/core/models/mixins/_base.py,
lines 232-296).  The statement is the list of WHERE conjuncts accumulated so
far.  The condition dict is checked for its "column" and "value" keys
(ValueError when absent), then dispatched on the "op" value through the
if/elif chain of the source; every recognized branch first resolves
`getattr(cls, column)` (AttributeError when the column is not an attribute)
and appends one predicate.  A condition whose "op" value matches no branch
falls through the chain: nothing is appended and no error is raised. -/
def build_where_step (stmt : List Atom) (w : Cond) : Except Err (List Atom) :=
  match w.column with
  | none => Except.error (Err.valueError "Not found column key in where!")
  | some c =>
    match w.value with
    | none => Except.error (Err.valueError "Not found value key in where!")
    | some fv =>
      if w.op = none ∨ w.op = some "eq" ∨ w.op = some "equal" ∨
          w.op = some "=" ∨ w.op = some "==" then
        if hasAttr c then Except.ok (stmt ++ [Atom.aeq c fv])
        else Except.error (Err.schemaError c)
      else if w.op = some "ne" ∨ w.op = some "not_equal" ∨ w.op = some "!=" then
        if hasAttr c then Except.ok (stmt ++ [Atom.ane c fv])
        else Except.error (Err.schemaError c)
      else if w.op = some "like" then
        if hasAttr c then Except.ok (stmt ++ [Atom.alike c fv])
        else Except.error (Err.schemaError c)
      else if w.op = some "gt" ∨ w.op = some ">" then
        if hasAttr c then Except.ok (stmt ++ [Atom.agt c fv])
        else Except.error (Err.schemaError c)
      else if w.op = some "ge" ∨ w.op = some ">=" then
        if hasAttr c then Except.ok (stmt ++ [Atom.age c fv])
        else Except.error (Err.schemaError c)
      else if w.op = some "lt" ∨ w.op = some "<" then
        if hasAttr c then Except.ok (stmt ++ [Atom.alt c fv])
        else Except.error (Err.schemaError c)
      else if w.op = some "le" ∨ w.op = some "<=" then
        if hasAttr c then Except.ok (stmt ++ [Atom.ale c fv])
        else Except.error (Err.schemaError c)
      else if w.op = some "between" then
        if hasAttr c then
          match fv with
          | FVal.two lo hi => Except.ok (stmt ++ [Atom.abetween c lo hi])
          | FVal.one _ =>
            Except.error (Err.typeError "between value is not a pair")
        else Except.error (Err.schemaError c)
      else Except.ok stmt

/-- The loop of `_build_where`: starting from the accumulated statement,
process the conditions left to right, stopping at the first raised error. -/
def build_where (stmt : List Atom) : List Cond → Except Err (List Atom)
  | [] => Except.ok stmt
  | w :: rest =>
    match build_where_step stmt w with
    | Except.error e => Except.error e
    | Except.ok stmt' => build_where stmt' rest

/-- Substring test used for the SQL pattern produced by the `like` branch
(the source wraps the value in a pair of percent signs). -/
def containsSub : List Char → List Char → Bool
  | s, pat =>
    pat.isPrefixOf s ||
      match s with
      | [] => false
      | _ :: tl => containsSub tl pat

/-- Evaluation of one WHERE conjunct against a row (the semantics the
storage engine gives to the built predicate).  Comparisons between values of
different column type, or against a pair where a single value is expected,
are never satisfied. -/
def evalAtom (r : Row) : Atom → Bool
  | Atom.aeq c v =>
    match getCol r c, v with
    | some x, FVal.one y => x = y
    | _, _ => false
  | Atom.ane c v =>
    match getCol r c, v with
    | some x, FVal.one y => x ≠ y
    | _, _ => false
  | Atom.alike c v =>
    match getCol r c, v with
    | some (Value.s x), FVal.one (Value.s y) => containsSub x y
    | _, _ => false
  | Atom.agt c v =>
    match getCol r c, v with
    | some x, FVal.one y => y < x
    | _, _ => false
  | Atom.age c v =>
    match getCol r c, v with
    | some x, FVal.one y => y ≤ x
    | _, _ => false
  | Atom.alt c v =>
    match getCol r c, v with
    | some x, FVal.one y => x < y
    | _, _ => false
  | Atom.ale c v =>
    match getCol r c, v with
    | some x, FVal.one y => x ≤ y
    | _, _ => false
  | Atom.abetween c lo hi =>
    match getCol r c with
    | some x => lo ≤ x ∧ x ≤ hi
    | none => false

/-- A row satisfies a built statement when it satisfies every conjunct. -/
def evalWhere (atoms : List Atom) (r : Row) : Bool :=
  atoms.all (evalAtom r)

/-- Sort key of a row under an order_by column list, as built by
`_build_select`: the requested columns that exist on the class (the source
guards each with `hasattr`), followed by the mandatory primary-key
tie-break `cls.id`. -/
def keyOf (cols : List String) (r : Row) : List Value :=
  ((cols.filter (fun c => hasAttr c)).map (fun c => (getCol r c).getD (Value.i 0)))
    ++ [Value.s r.id.data]

/-- Row comparison determined by the ORDER BY clause of `_build_select`:
lexicographic on `keyOf`, with every column (and the id tie-break) in the
same direction, descending when `dsc` is true. -/
def rowle (cols : List String) (dsc : Bool) (r s : Row) : Prop :=
  match dsc with
  | true => keyOf cols s ≤ keyOf cols r
  | false => keyOf cols r ≤ keyOf cols s

instance rowleDec (cols : List String) (dsc : Bool) : DecidableRel (rowle cols dsc) :=
  fun r s =>
    match dsc with
    | true => (inferInstance : Decidable (keyOf cols s ≤ keyOf cols r))
    | false => (inferInstance : Decidable (keyOf cols r ≤ keyOf cols s))

instance rowleTotal (cols : List String) (dsc : Bool) : IsTotal Row (rowle cols dsc) where
  total r s := by cases dsc <;> exact le_total _ _

instance rowleTrans (cols : List String) (dsc : Bool) : IsTrans Row (rowle cols dsc) where
  trans r s t := by
    cases dsc
    · exact fun h1 h2 => le_trans h1 h2
    · exact fun h1 h2 => le_trans h2 h1

/-- The total order the storage engine realizes for the built ORDER BY:
the model sorts with a deterministic sorting function. -/
def sortRows (cols : List String) (dsc : Bool) (rows : List Row) : List Row :=
  List.insertionSort (rowle cols dsc) rows

/-- The executable heart of `_build_select` (deferred-join pagination):
the key-only subquery filters the table with the built WHERE conjuncts,
orders by the requested columns plus the id tie-break, and applies
LIMIT/OFFSET; the outer query joins the full table against the resulting
ids and re-applies the same ordering. -/
def run_select (db : List Row) (atoms : List Atom) (offset limit : Nat)
    (cols : List String) (dsc : Bool) (disableLimit : Bool) : List Row :=
  let sorted := sortRows cols dsc (db.filter (evalWhere atoms))
  let window := if disableLimit then sorted else (sorted.drop offset).take limit
  let pageIds := window.map Row.id
  sortRows cols dsc (db.filter (fun r => decide (r.id ∈ pageIds)))

/-- Embedding of `_build_select`: builds the WHERE conjuncts for the
key-only subquery (propagating any ValueError/AttributeError raised while
building) and otherwise produces the deferred-join result. -/
def build_select (db : List Row) (conds : List Cond) (offset limit : Nat)
    (cols : List String) (dsc : Bool) (disableLimit : Bool) :
    Except Err (List Row) :=
  match build_where [] conds with
  | Except.error e => Except.error e
  | Except.ok atoms =>
      Except.ok (run_select db atoms offset limit cols dsc disableLimit)

/-- Embedding of `select_by_where`: executes the built select and raises
NoResultFound when the result is empty and `allow_no_result` is false. -/
def select_by_where (db : List Row) (conds : List Cond) (offset limit : Nat)
    (cols : List String) (dsc : Bool) (disableLimit : Bool)
    (allowNoResult : Bool) : Except Err (List Row) :=
  match build_select db conds offset limit cols dsc disableLimit with
  | Except.error e => Except.error e
  | Except.ok objs =>
      if ¬ allowNoResult ∧ objs = [] then Except.error Err.noResultFound
      else Except.ok objs


/-- Extract the payload of a successful operation, with a default. -/
def okOr {ε α : Type} (x : Except ε α) (dflt : α) : α :=
  match x with
  | Except.ok v => v
  | Except.error _ => dflt

/-- Strings are determined by their character data. -/
theorem string_data_inj {a b : String} (h : a.data = b.data) : a = b := by
  cases a
  cases b
  exact congrArg String.mk (by simpa using h)

/-- On rows drawn from a table with duplicate-free ids, the ORDER BY order
of `_build_select` is antisymmetric: the mandatory id tie-break decides
every tie the requested columns leave. -/
theorem rowle_antisymm_on {db : List Row} (hids : (db.map Row.id).Nodup)
    {cols : List String} {dsc : Bool} {r s : Row}
    (hr : r ∈ db) (hs : s ∈ db)
    (h1 : rowle cols dsc r s) (h2 : rowle cols dsc s r) : r = s := by
  have hkey : keyOf cols r = keyOf cols s := by
    cases dsc
    · exact le_antisymm h1 h2
    · exact le_antisymm h2 h1
  have hlen :
      ((cols.filter (fun c => hasAttr c)).map
          (fun c => (getCol r c).getD (Value.i 0))).length =
        ((cols.filter (fun c => hasAttr c)).map
          (fun c => (getCol s c).getD (Value.i 0))).length := by
    simp
  have htail := (List.append_inj hkey hlen).2
  have hid : r.id = s.id := by
    have hvs : Value.s r.id.data = Value.s s.id.data := by
      simpa using htail
    exact string_data_inj (Value.s.inj hvs)
  exact List.inj_on_of_nodup_map hids hr hs hid

/-- Sorted lists related by a permutation are equal, assuming antisymmetry
only on the elements involved (the row order is antisymmetric only on rows
with distinct ids, so the instance-based Mathlib lemma does not apply). -/
theorem eq_of_perm_of_sorted_on {α : Type} {r : α → α → Prop} :
    ∀ {l₁ l₂ : List α}, l₁.Perm l₂ → l₁.Sorted r → l₂.Sorted r →
      (∀ x ∈ l₁, ∀ y ∈ l₁, r x y → r y x → x = y) → l₁ = l₂ := by
  intro l₁
  induction l₁ with
  | nil =>
    intro l₂ hp _ _ _
    exact hp.nil_eq
  | cons a t ih =>
    intro l₂ hp hs₁ hs₂ hA
    have ha₂ : a ∈ l₂ := hp.subset (List.mem_cons_self _ _)
    rcases List.append_of_mem ha₂ with ⟨u₂, v₂, rfl⟩
    have hp' : t.Perm (u₂ ++ v₂) := (List.perm_cons a).1 (hp.trans List.perm_middle)
    have hu : t = u₂ ++ v₂ :=
      ih hp' hs₁.of_cons (hs₂.sublist (by simp))
        (fun x hx y hy hxy hyx =>
          hA x (List.mem_cons_of_mem _ hx) y (List.mem_cons_of_mem _ hy) hxy hyx)
    subst hu
    have hall : ∀ x ∈ u₂, x = a := by
      intro x hx
      have hxa : r x a :=
        (List.pairwise_append.1 hs₂).2.2 x hx a (List.mem_cons_self _ _)
      have hax : r a x :=
        List.rel_of_sorted_cons hs₁ x (List.mem_append_left _ hx)
      exact hA x (List.mem_cons_of_mem _ (List.mem_append_left _ hx)) a
        (List.mem_cons_self _ _) hxa hax
    clear hp hp' hs₁ hs₂ hA ha₂ ih
    revert hall
    induction u₂ with
    | nil =>
      intro _
      rfl
    | cons b u ih₂ =>
      intro hall
      have hb : b = a := hall b (List.mem_cons_self _ _)
      have htl := ih₂ (fun x hx => hall x (List.mem_cons_of_mem _ hx))
      rw [hb]
      show a :: (a :: (u ++ v₂)) = a :: (u ++ a :: v₂)
      rw [htl]

/-- With duplicate-free ids, the deferred-join select returns exactly the
limit/offset window of the sorted filtered table: joining the full table
against the page of ids and re-applying the same ordering reproduces the
page. -/
theorem run_select_eq_window (db : List Row) (atoms : List Atom)
    (offset limit : Nat) (cols : List String) (dsc : Bool)
    (hids : (db.map Row.id).Nodup) :
    run_select db atoms offset limit cols dsc false =
      ((sortRows cols dsc (db.filter (evalWhere atoms))).drop offset).take limit := by
  have hdb : db.Nodup := List.Nodup.of_map _ hids
  set F := db.filter (evalWhere atoms) with hF
  set S := sortRows cols dsc F with hS
  set W := (S.drop offset).take limit with hWdef
  have hSW : List.Sublist W S :=
    (List.take_sublist _ _).trans (List.drop_sublist _ _)
  have hSperm : S.Perm F := List.perm_insertionSort _ _
  have hFsub : ∀ x ∈ F, x ∈ db := fun x hx => List.mem_of_mem_filter hx
  have hSsorted : S.Sorted (rowle cols dsc) := List.sorted_insertionSort _ _
  have hWsorted : W.Sorted (rowle cols dsc) := hSsorted.sublist hSW
  have hFnodup : F.Nodup := hdb.filter _
  have hSnodup : S.Nodup := hSperm.nodup_iff.2 hFnodup
  have hWnodup : W.Nodup := hSnodup.sublist hSW
  have hWdb : ∀ x ∈ W, x ∈ db := fun x hx => hFsub x (hSperm.subset (hSW.subset hx))
  set J := db.filter (fun r => decide (r.id ∈ W.map Row.id)) with hJ
  have hJnodup : J.Nodup := hdb.filter _
  have hmem : ∀ x, x ∈ J ↔ x ∈ W := by
    intro x
    constructor
    · intro hx
      have hx1 : x ∈ db := List.mem_of_mem_filter hx
      have hx2 : x.id ∈ W.map Row.id := by
        have := List.of_mem_filter hx
        simpa using this
      rcases List.mem_map.1 hx2 with ⟨w, hw, hwid⟩
      have hwx : w = x := List.inj_on_of_nodup_map hids (hWdb w hw) hx1 hwid
      exact hwx ▸ hw
    · intro hx
      refine List.mem_filter.2 ⟨hWdb x hx, ?_⟩
      simpa using List.mem_map_of_mem Row.id hx
  have hJperm : J.Perm W := (List.perm_ext_iff_of_nodup hJnodup hWnodup).2 hmem
  have hLs : (sortRows cols dsc J).Sorted (rowle cols dsc) :=
    List.sorted_insertionSort _ _
  have hLperm : (sortRows cols dsc J).Perm W :=
    (List.perm_insertionSort _ _).trans hJperm
  have hLdb : ∀ x ∈ sortRows cols dsc J, x ∈ db := fun x hx =>
    List.mem_of_mem_filter ((List.perm_insertionSort _ _).subset hx)
  have hmain : sortRows cols dsc J = W :=
    eq_of_perm_of_sorted_on hLperm hLs hWsorted
      (fun x hx y hy hxy hyx => rowle_antisymm_on hids (hLdb x hx) (hLdb y hy) hxy hyx)
  show sortRows cols dsc J = W
  exact hmain

/-- Concatenating the k-sized windows at offsets 0, k, 2k, … of a list
recovers the list, once N·k covers its length. -/
theorem join_take_drop {α : Type} (k : Nat) :
    ∀ (N : Nat) (L : List α), L.length ≤ N * k →
      ((List.range N).map (fun i => (L.drop (i * k)).take k)).flatten = L := by
  intro N
  induction N with
  | zero =>
    intro L hL
    have hnil : L = [] := List.eq_nil_of_length_eq_zero (Nat.le_zero.1 (by simpa using hL))
    simp [hnil]
  | succ n ih =>
    intro L hL
    have hlen : (L.drop k).length ≤ n * k := by
      have h1 : (n + 1) * k = n * k + k := Nat.succ_mul n k
      simp only [List.length_drop]
      omega
    have hcong : ∀ i ∈ List.range n,
        (L.drop (Nat.succ i * k)).take k = ((L.drop k).drop (i * k)).take k := by
      intro i _
      rw [List.drop_drop, Nat.succ_mul i k, Nat.add_comm (i * k) k]
    rw [List.range_succ_eq_map, List.map_cons, List.map_map, List.flatten_cons]
    have htail :
        (List.map ((fun i => (L.drop (i * k)).take k) ∘ Nat.succ) (List.range n)).flatten =
          L.drop k := by
      have hmapeq :
          List.map ((fun i => (L.drop (i * k)).take k) ∘ Nat.succ) (List.range n) =
            List.map (fun i => ((L.drop k).drop (i * k)).take k) (List.range n) :=
        List.map_congr_left hcong
      rw [hmapeq]
      exact ih (L.drop k) hlen
    rw [htail]
    simp

/-- When the WHERE build succeeds, `select_by_where` with
`allow_no_result` returns the deferred-join result. -/
theorem select_by_where_ok (db : List Row) (conds : List Cond)
    (offset limit : Nat) (cols : List String) (dsc : Bool) (dl : Bool)
    {atoms : List Atom} (hw : build_where [] conds = Except.ok atoms) :
    select_by_where db conds offset limit cols dsc dl true =
      Except.ok (run_select db atoms offset limit cols dsc dl) := by
  simp [select_by_where, build_select, hw]

/-- C1: for every fixed dataset with duplicate-free ids, every filter that
builds, every order_by column list and direction, and every page size
k > 0, concatenating the pages of `select_by_where` at offsets 0, k, 2k, …
yields exactly the rows satisfying the filter — a permutation of the
filtered table with no duplicates — even when the order_by columns contain
ties, because `_build_select` appends the primary-key ordering after the
requested columns in both the key-only subquery and the outer query. -/
theorem pagination_deterministic
    (db : List Row) (conds : List Cond) (atoms : List Atom)
    (cols : List String) (dsc : Bool) (k N : Nat)
    (hw : build_where [] conds = Except.ok atoms)
    (hids : (db.map Row.id).Nodup) (hk : 0 < k)
    (hN : (db.filter (evalWhere atoms)).length ≤ N * k) :
    (((List.range N).map
        (fun i => okOr (select_by_where db conds (i * k) k cols dsc false true) [])).flatten).Perm
        (db.filter (evalWhere atoms)) ∧
      (((List.range N).map
        (fun i => okOr (select_by_where db conds (i * k) k cols dsc false true) [])).flatten).Nodup := by
  have hpage : ∀ i,
      okOr (select_by_where db conds (i * k) k cols dsc false true) [] =
        ((sortRows cols dsc (db.filter (evalWhere atoms))).drop (i * k)).take k := by
    intro i
    rw [select_by_where_ok db conds (i * k) k cols dsc false hw]
    show run_select db atoms (i * k) k cols dsc false = _
    exact run_select_eq_window db atoms (i * k) k cols dsc hids
  have hlen : (sortRows cols dsc (db.filter (evalWhere atoms))).length ≤ N * k := by
    have := (List.perm_insertionSort (rowle cols dsc)
      (db.filter (evalWhere atoms))).length_eq
    simpa [sortRows, this] using hN
  have hjoin :
      ((List.range N).map
        (fun i => okOr (select_by_where db conds (i * k) k cols dsc false true) [])).flatten =
        sortRows cols dsc (db.filter (evalWhere atoms)) := by
    rw [List.map_congr_left (fun i _ => hpage i)]
    exact join_take_drop k N _ hlen
  constructor
  · rw [hjoin]
    exact List.perm_insertionSort _ _
  · rw [hjoin]
    exact (List.perm_insertionSort _ _).nodup_iff.2 ((List.Nodup.of_map _ hids).filter _)

/-- Witness for C1: three rows paginated two at a time under an order_by
column ("name") that contains a tie. -/
theorem pagination_deterministic_witness :
    (((List.range 2).map
        (fun i => okOr (select_by_where [⟨"b", "x", 1⟩, ⟨"a", "x", 2⟩, ⟨"c", "y", 3⟩]
          [] (i * 2) 2 ["name"] false false true) [])).flatten).Perm
        (([⟨"b", "x", 1⟩, ⟨"a", "x", 2⟩, ⟨"c", "y", 3⟩] : List Row).filter (evalWhere [])) ∧
      (((List.range 2).map
        (fun i => okOr (select_by_where [⟨"b", "x", 1⟩, ⟨"a", "x", 2⟩, ⟨"c", "y", 3⟩]
          [] (i * 2) 2 ["name"] false false true) [])).flatten).Nodup :=
  pagination_deterministic [⟨"b", "x", 1⟩, ⟨"a", "x", 2⟩, ⟨"c", "y", 3⟩] [] []
    ["name"] false 2 2 rfl (by decide) (by decide) (by decide)

/-- Sequencing of `_build_where` over a split condition list: the builder
threads the statement left to right, so building `l₁ ++ l₂` is building
`l₁` and, on success, continuing with `l₂`. -/
theorem build_where_append (l₁ : List Cond) :
    ∀ (stmt : List Atom) (l₂ : List Cond),
      build_where stmt (l₁ ++ l₂) =
        Except.bind (build_where stmt l₁) (fun s => build_where s l₂) := by
  induction l₁ with
  | nil =>
    intro stmt l₂
    rfl
  | cons w rest ih =>
    intro stmt l₂
    simp only [List.cons_append, build_where]
    cases build_where_step stmt w with
    | error e => rfl
    | ok stmt' => exact ih stmt' l₂

/-- C10: a condition dict that carries "column" and "value" keys but whose
"op" value is none of the recognized operator tokens falls through the
if/elif chain of `_build_where`: the condition is silently dropped — the
statement is returned unchanged, no predicate is appended and no error is
raised. -/
theorem unrecognized_op_dropped
    (stmt : List Atom) (c : String) (opv : String) (v : FVal) (rest : List Cond)
    (hop : opv ∉ ["eq", "equal", "=", "==", "ne", "not_equal", "!=", "like",
      "gt", ">", "ge", ">=", "lt", "<", "le", "<=", "between"]) :
    build_where stmt (⟨some c, some opv, some v⟩ :: rest) = build_where stmt rest := by
  simp only [List.mem_cons, List.mem_singleton, not_or] at hop
  obtain ⟨h1, h2, h3, h4, h5, h6, h7, h8, h9, h10, h11, h12, h13, h14, h15, h16, h17, -⟩ := hop
  simp [build_where, build_where_step, h1, h2, h3, h4, h5, h6, h7, h8, h9, h10, h11,
    h12, h13, h14, h15, h16, h17]

/-- Witness for C10: a misspelled operator token ("contains") widens the
result instead of failing. -/
theorem unrecognized_op_dropped_witness :
    "contains" ∉ ["eq", "equal", "=", "==", "ne", "not_equal", "!=", "like",
        "gt", ">", "ge", ">=", "lt", "<", "le", "<=", "between"] ∧
      build_where [] [⟨some "name", some "contains", some (FVal.one (Value.s ['a']))⟩] =
        build_where [] [] :=
  ⟨by decide,
    unrecognized_op_dropped [] "name" "contains" (FVal.one (Value.s ['a'])) [] (by decide)⟩

/-- Counterexample to C6 as stated: a condition whose column names no
attribute of the entity, combined with an unrecognized operator token, is
dropped without any error — `_build_where` succeeds and the select runs
against the storage engine and returns rows, instead of failing with the
schema error the claim promises for every condition with an absent
column. -/
theorem missing_column_claim_counterexample :
    hasAttr "no_such_column" = false ∧
      build_where [] [⟨some "no_such_column", some "xyz", some (FVal.one (Value.i 1))⟩] =
        Except.ok [] ∧
      select_by_where [⟨"a", "x", 1⟩]
          [⟨some "no_such_column", some "xyz", some (FVal.one (Value.i 1))⟩]
          0 10 [] true false true =
        Except.ok [⟨"a", "x", 1⟩] := by
  refine ⟨by decide, by decide, by decide⟩

/-- C6 (amended): for every filter condition carrying a recognized operator
token (or no "op" key at all) whose column does not name an attribute of
the entity, `_build_where` fails with the schema error (AttributeError) for
that column — provided the preceding conditions build — and the failure is
raised during statement building, before any I/O: `select_by_where` returns
that error for every database state.  (A condition with an unrecognized
operator is instead dropped without touching the column.) -/
theorem missing_column_schema_error
    (pre : List Cond) (atoms : List Atom) (c : String) (opv : Option String)
    (v : FVal) (rest : List Cond) (db : List Row) (offset limit : Nat)
    (cols : List String) (dsc dl anr : Bool)
    (hpre : build_where [] pre = Except.ok atoms)
    (hc : hasAttr c = false)
    (hop : opv = none ∨ opv ∈ [some "eq", some "equal", some "=", some "==",
      some "ne", some "not_equal", some "!=", some "like", some "gt", some ">",
      some "ge", some ">=", some "lt", some "<", some "le", some "<=",
      some "between"]) :
    build_where [] (pre ++ ⟨some c, opv, some v⟩ :: rest) =
        Except.error (Err.schemaError c) ∧
      select_by_where db (pre ++ ⟨some c, opv, some v⟩ :: rest)
          offset limit cols dsc dl anr =
        Except.error (Err.schemaError c) := by
  have hbuild : build_where [] (pre ++ ⟨some c, opv, some v⟩ :: rest) =
      Except.error (Err.schemaError c) := by
    rw [build_where_append, hpre]
    show build_where atoms (⟨some c, opv, some v⟩ :: rest) = _
    simp only [List.mem_cons, List.not_mem_nil, or_false] at hop
    rcases hop with h | h | h | h | h | h | h | h | h | h | h | h | h | h | h | h | h | h <;>
      subst h <;> simp [build_where, build_where_step, hc]
  refine ⟨hbuild, ?_⟩
  simp [select_by_where, build_select, hbuild]

/-- Witness for C6 (amended): a recognized operator with an absent column
fails with the schema error before reaching any stored data. -/
theorem missing_column_schema_error_witness :
    build_where [] ([] ++ ⟨some "missing", some "eq", some (FVal.one (Value.i 1))⟩ :: []) =
        Except.error (Err.schemaError "missing") ∧
      select_by_where [⟨"a", "x", 1⟩]
          ([] ++ ⟨some "missing", some "eq", some (FVal.one (Value.i 1))⟩ :: [])
          0 10 [] true false true =
        Except.error (Err.schemaError "missing") :=
  missing_column_schema_error [] [] "missing" (some "eq") (FVal.one (Value.i 1)) []
    [⟨"a", "x", 1⟩] 0 10 [] true false true rfl (by decide) (by decide)

/-- The field-value map (**kwargs) of a mutating operation on the modelled
entity: at most one value per key, `none` when the key is absent (Python
keyword arguments cannot repeat a key). -/
structure UpdData where
  idv : Option String
  namev : Option String
  pointv : Option Int
deriving DecidableEq, Repr

/-- Whether the kwargs dict is empty (the `if not kwargs` guard). -/
def UpdData.isEmpty (u : UpdData) : Bool :=
  u.idv = none ∧ u.namev = none ∧ u.pointv = none

/-- SET-clause semantics of a statement-mode update: `.values(**kwargs)`
writes every supplied key — including "id" when the caller supplied one. -/
def applyVals (u : UpdData) (r : Row) : Row :=
  { id := u.idv.getD r.id, name := u.namev.getD r.name, point := u.pointv.getD r.point }

/-- Field assignment of the instance-mode update loops (`update` and
`update_objects` in src/app/src/databases/rdb/mixins/sync/update.py, and
the api async variants): the "id" key is skipped. -/
def applyInstance (u : UpdData) (r : Row) : Row :=
  { id := r.id, name := u.namev.getD r.name, point := u.pointv.getD r.point }

/-- Embedding of the app UpdateMixin.update_by_id with orm_way=False
(src/app/src/databases/rdb/mixins/sync/update.py, lines 89-114 region):
after the kwargs check the statement is
`update(cls).where(cls.id == id).values(**kwargs)` — kwargs passed through
unchanged, "id" included — and with `returning` (the default)
`scalars().one()` raises NoResultFound when no row matched (the rollback
restores the previous state, so an error leaves the table unchanged). -/
def update_by_id_app (db : List Row) (i : String) (u : UpdData) :
    Except Err (List Row) :=
  if u.isEmpty then Except.error (Err.valueError "No data provided to update!")
  else if decide (i ∈ db.map Row.id) then
    Except.ok (db.map (fun r => if r.id = i then applyVals u r else r))
  else Except.error Err.noResultFound

/-- Embedding of the api AsyncUpdateMixin.async_update_by_id with
orm_way=False (src/src/api/core/models/mixins/async_/update.py): the same
statement-mode update, but the method first deletes the "id" key from
kwargs; a SET clause left empty by the deletion is rejected by the
statement builder. -/
def async_update_by_id_api (db : List Row) (i : String) (u : UpdData) :
    Except Err (List Row) :=
  if u.isEmpty then Except.error Err.emptyValueError
  else
    let u' : UpdData := { u with idv := none }
    if u'.isEmpty then Except.error (Err.valueError "update requires values")
    else if decide (i ∈ db.map Row.id) then
      Except.ok (db.map (fun r => if r.id = i then applyVals u' r else r))
    else Except.error Err.noResultFound

/-- Embedding of the app instance-mode `update` method applied to a loaded
row: assigns every kwargs key except "id" on the object and commits. -/
def update_app (db : List Row) (selfId : String) (u : UpdData) : List Row :=
  db.map (fun r => if r.id = selfId then applyInstance u r else r)

/-- Embedding of app update_by_where with orm_way=False (statement mode):
builds the WHERE onto an UPDATE statement and passes **kwargs unchanged to
`.values`. -/
def update_by_where_stmt (db : List Row) (conds : List Cond) (u : UpdData) :
    Except Err (List Row) :=
  if u.isEmpty then Except.error (Err.valueError "No data provided to update!")
  else
    match build_where [] conds with
    | Except.error e => Except.error e
    | Except.ok atoms =>
        Except.ok (db.map (fun r => if evalWhere atoms r then applyVals u r else r))

/-- Embedding of app update_by_where with orm_way=True (instance mode): the
matching rows are loaded with `select_by_where(..., disable_limit=True)`
and, when at least one row matched, the code calls
`cls.update_objects(session=session, objects=_orm_objects, ...)` — but the
parameter of `update_objects` is named `orm_objects`, so Python rejects the
call with a TypeError before any row is modified.  (The api async variant
makes the same call with the same keyword mismatch against
`async_update_objects`.) -/
def update_by_where_orm (db : List Row) (conds : List Cond) (u : UpdData) :
    Except Err (List Row) :=
  if u.isEmpty then Except.error (Err.valueError "No data provided to update!")
  else
    match select_by_where db conds 0 0 [] true true true with
    | Except.error e => Except.error e
    | Except.ok objs =>
        if objs.isEmpty then Except.ok db
        else
          Except.error (Err.typeError
            "update_objects missing 1 required positional argument orm_objects")

/-- C2 is a code bug: in instance mode (orm_way=true) `update_by_where`
invokes update_objects with the keyword `objects=`, whose parameter is
named `orm_objects`; with a non-empty field map and a filter matching one
row, instance mode raises TypeError and leaves the row unchanged while
statement mode updates it — the two modes do not produce the same final
state. -/
theorem update_mode_divergence :
    update_by_where_orm [⟨"tas1", "a", 0⟩]
        [⟨some "point", some "eq", some (FVal.one (Value.i 0))⟩]
        ⟨none, none, some 1⟩ =
      Except.error (Err.typeError
        "update_objects missing 1 required positional argument orm_objects") ∧
    update_by_where_stmt [⟨"tas1", "a", 0⟩]
        [⟨some "point", some "eq", some (FVal.one (Value.i 0))⟩]
        ⟨none, none, some 1⟩ =
      Except.ok [⟨"tas1", "a", 1⟩] := by
  refine ⟨by decide, by decide⟩

/-- Methods defined on the model/mixin classes, collected from the source
files; `_build_where_stmt` — the name the statement mode of
`delete_by_where` invokes — is not among them: only `_build_where` is ever
defined. -/
def definedMethods : List String :=
  ["_build_where", "_build_select", "gen_unique_id", "to_dict", "to_json",
   "from_json", "async_delete", "async_delete_by_id", "async_delete_by_ids",
   "async_delete_objects", "async_delete_by_where", "async_delete_all",
   "delete", "delete_by_id", "delete_by_ids", "delete_objects",
   "delete_by_where", "delete_all"]

/-- The set-based DELETE that the statement mode of `delete_by_where`
intends: build the WHERE onto a DELETE statement, remove the matching rows,
and raise NoResultFound when no row matched and `allow_no_result` is
false. -/
def delete_by_where_intended (db : List Row) (conds : List Cond)
    (allowNoResult : Bool) : Except Err (List Row) :=
  match build_where [] conds with
  | Except.error e => Except.error e
  | Except.ok atoms =>
      if ¬ allowNoResult ∧ (db.filter (evalWhere atoms)).isEmpty then
        Except.error Err.noResultFound
      else Except.ok (db.filter (fun r => ¬ evalWhere atoms r))

/-- Embedding of delete_by_where with orm_way=False (statement mode, sync
and async variants alike): inside the try block the code calls
`cls._build_where_stmt(stmt=_stmt, where=where)`; attribute lookup on the
class happens first, and the name is nowhere defined, so every call raises
AttributeError before the WHERE is built and before anything reaches the
storage engine. -/
def delete_by_where_stmt (db : List Row) (conds : List Cond)
    (allowNoResult : Bool) : Except Err (List Row) :=
  if decide ("_build_where_stmt" ∈ definedMethods) then
    delete_by_where_intended db conds allowNoResult
  else Except.error (Err.attributeError "_build_where_stmt")

/-- C3 is a code bug: statement-mode delete_by_where always fails with
AttributeError — for every database state, every filter and either value of
allow_no_result — because `_build_where_stmt` is never defined (the builder
is named `_build_where`); no row is ever deleted and the failure happens
before the storage engine is reached. -/
theorem delete_by_where_always_attribute_error
    (db : List Row) (conds : List Cond) (anr : Bool) :
    delete_by_where_stmt db conds anr =
      Except.error (Err.attributeError "_build_where_stmt") :=
  rfl

/-- Counterexample to C4 as stated: in the app sync mixin, statement-mode
update_by_id passes a supplied "id" key straight into the SET clause, so
the stored entity's id is rewritten from "A" to "B". -/
theorem update_id_written_counterexample :
    update_by_id_app [⟨"A", "x", 0⟩] "A" ⟨some "B", none, none⟩ =
        Except.ok [⟨"B", "x", 0⟩] ∧
      ([⟨"B", "x", 0⟩] : List Row).map Row.id ≠
        ([⟨"A", "x", 0⟩] : List Row).map Row.id := by
  refine ⟨by decide, by decide⟩

/-- C4 (amended): the api async update operations delete the "id" key from
the field map and the instance-mode update loops skip it, so those
operations leave every stored id unchanged; but the app sync statement-mode
updates (update_by_id, update_by_ids, update_by_where) pass a supplied "id"
through `.values(**kwargs)` and write it. -/
theorem update_id_preserved_amended
    (db db' : List Row) (i : String) (u : UpdData)
    (hapi : async_update_by_id_api db i u = Except.ok db') :
    db'.map Row.id = db.map Row.id ∧
      (update_app db i u).map Row.id = db.map Row.id := by
  constructor
  · have hdb' : db' = db.map
        (fun r => if r.id = i then applyVals { u with idv := none } r else r) := by
      simp only [async_update_by_id_api] at hapi
      split_ifs at hapi <;> simp_all
    subst hdb'
    rw [List.map_map]
    refine List.map_congr_left ?_
    intro r _
    by_cases hr : r.id = i <;> simp [hr, applyVals]
  · rw [update_app, List.map_map]
    refine List.map_congr_left ?_
    intro r _
    by_cases hr : r.id = i <;> simp [hr, applyInstance]

/-- Witness for C4 (amended): an update carrying an "id" key leaves the
stored id untouched in the api statement mode and in instance mode. -/
theorem update_id_preserved_amended_witness :
    ([⟨"A", "x", 7⟩] : List Row).map Row.id =
        ([⟨"A", "x", 0⟩] : List Row).map Row.id ∧
      (update_app [⟨"A", "x", 0⟩] "A" ⟨some "B", none, some 7⟩).map Row.id =
        ([⟨"A", "x", 0⟩] : List Row).map Row.id :=
  update_id_preserved_amended [⟨"A", "x", 0⟩] [⟨"A", "x", 7⟩] "A"
    ⟨some "B", none, some 7⟩ (by decide)

/-- Character data of a concatenation of strings. -/
theorem string_data_append (a b : String) : (a ++ b).data = a.data ++ b.data := by
  cases a
  cases b
  rfl

/-- Rebuilding a string from its character data. -/
theorem string_mk_data (s : String) : String.mk s.data = s := by
  cases s
  rfl

/-- String concatenation is associative. -/
theorem str_append_assoc (a b c : String) : a ++ b ++ c = a ++ (b ++ c) := by
  apply string_data_inj
  simp [string_data_append, List.append_assoc]

/-- Python str.replace (all occurrences), on character lists, with an
explicit recursion bound; the bound is instantiated with the string length,
which suffices because every step consumes at least one character. -/
def pyReplaceF (pat rep : List Char) : Nat → List Char → List Char
  | 0, s => s
  | _ + 1, [] => []
  | fuel + 1, c :: cs =>
    if pat ≠ [] ∧ pat.isPrefixOf (c :: cs) then
      rep ++ pyReplaceF pat rep fuel ((c :: cs).drop pat.length)
    else c :: pyReplaceF pat rep fuel cs

/-- Python `s.replace(pat, rep)`. -/
def pyReplace (s pat rep : String) : String :=
  String.mk (pyReplaceF pat.data rep.data s.data.length s.data)

/-- The UniqueViolation branch of the IntegrityError translation in the api
async_insert (src/{{cookiecutter.project_slug}}/src/api/core/models/mixins/
async_/_create.py): strip "Key " from the engine's message detail, then
classify as a primary-key violation precisely when the substring "(id)="
occurs in the stripped detail, and as a plain unique-constraint violation
otherwise. -/
def translate_unique (messageDetail : String) : Err :=
  let detail := pyReplace messageDetail "Key " ""
  if containsSub detail.data "(id)=".data then Err.primaryKeyError detail
  else Err.uniqueKeyError detail

/-- The message detail PostgreSQL attaches to a unique-constraint
violation, without the "Key " prefix. -/
def pgUniqueRest (col val : String) : String :=
  "(" ++ col ++ ")=(" ++ val ++ ") already exists."

/-- The full message detail PostgreSQL attaches to a unique-constraint
violation: `Key (col)=(val) already exists.` -/
def pgUniqueDetail (col val : String) : String :=
  "Key " ++ pgUniqueRest col val

/-- A pattern that occurs nowhere in a string is left alone by replace. -/
theorem pyReplaceF_no_occur (pat rep : List Char) :
    ∀ (fuel : Nat) (s : List Char), ¬ List.IsInfix pat s →
      pyReplaceF pat rep fuel s = s := by
  intro fuel
  induction fuel with
  | zero =>
    intro s _
    rfl
  | succ f ih =>
    intro s hocc
    cases s with
    | nil => rfl
    | cons c cs =>
      have hpre : ¬ (pat ≠ [] ∧ pat.isPrefixOf (c :: cs) = true) := by
        rintro ⟨-, hpf⟩
        have hpf' : List.IsPrefix pat (c :: cs) := List.isPrefixOf_iff_prefix.1 hpf
        rcases hpf' with ⟨t, ht⟩
        exact hocc ⟨[], t, by simpa using ht⟩
      rw [pyReplaceF, if_neg hpre]
      have htl : pyReplaceF pat rep f cs = cs := by
        refine ih cs (fun h => hocc (h.trans ?_))
        exact ⟨[c], [], by simp⟩
      rw [htl]

/-- Replacing a leading occurrence of the pattern, when the pattern occurs
nowhere in the remainder. -/
theorem pyReplaceF_leading (pat rep sfx : List Char) (hne : pat ≠ [])
    (hocc : ¬ List.IsInfix pat sfx) :
    ∀ fuel, 0 < fuel → pyReplaceF pat rep fuel (pat ++ sfx) = rep ++ sfx := by
  intro fuel hfuel
  cases pat with
  | nil => exact absurd rfl hne
  | cons p ps =>
    cases fuel with
    | zero => omega
    | succ f =>
      have hpre : (p :: ps).isPrefixOf ((p :: ps) ++ sfx) = true :=
        List.isPrefixOf_iff_prefix.2 (List.prefix_append _ _)
      rw [List.cons_append, pyReplaceF,
        if_pos ⟨by simp, by simpa [List.cons_append] using hpre⟩]
      have hdrop : (p :: (ps ++ sfx)).drop (p :: ps).length = sfx := by
        simpa [List.cons_append] using List.drop_left (p :: ps) sfx
      rw [hdrop, pyReplaceF_no_occur (p :: ps) rep f sfx hocc]

/-- The executable infix test agrees with `List.IsInfix`. -/
theorem containsSub_iff (s pat : List Char) :
    containsSub s pat = true ↔ List.IsInfix pat s := by
  induction s with
  | nil =>
    simp [containsSub, List.isPrefixOf_iff_prefix]
  | cons a tl ih =>
    rw [containsSub]
    simp only [Bool.or_eq_true, List.isPrefixOf_iff_prefix, ih]
    constructor
    · rintro (h | h)
      · rcases h with ⟨t, ht⟩
        exact ⟨[], t, by simpa using ht⟩
      · exact h.trans ⟨[a], [], by simp⟩
    · intro h
      rcases h with ⟨pre, suf, hps⟩
      cases pre with
      | nil =>
        exact Or.inl ⟨suf, by simpa using hps⟩
      | cons b pre' =>
        refine Or.inr ⟨pre', suf, ?_⟩
        have := hps
        simp only [List.cons_append] at this
        exact (List.cons.inj this).2

/-- Stripping the leading "Key " from an engine detail that contains no
further occurrence of "Key ". -/
theorem pyReplace_strip (rest : String)
    (hocc : ¬ List.IsInfix "Key ".data rest.data) :
    pyReplace ("Key " ++ rest) "Key " "" = rest := by
  unfold pyReplace
  rw [string_data_append]
  rw [pyReplaceF_leading "Key ".data "".data rest.data (by decide) hocc _ (by simp)]
  exact string_mk_data rest

/-- A primary-key unique violation translates into PrimaryKeyError, with a
detail that still references the conflicting id (for ids whose text does
not itself contain the pattern "Key "). -/
theorem translate_unique_pk (X : String)
    (hocc : containsSub (pgUniqueRest "id" X).data "Key ".data = false) :
    translate_unique (pgUniqueDetail "id" X) =
        Err.primaryKeyError (pgUniqueRest "id" X) ∧
      containsSub (pgUniqueRest "id" X).data X.data = true := by
  have hocc' : ¬ List.IsInfix "Key ".data (pgUniqueRest "id" X).data := by
    intro h
    rw [(containsSub_iff _ _).2 h] at hocc
    exact Bool.noConfusion hocc
  have hstrip : pyReplace (pgUniqueDetail "id" X) "Key " "" = pgUniqueRest "id" X :=
    pyReplace_strip _ hocc'
  have hshape : pgUniqueRest "id" X = "(id)=" ++ ("(" ++ X ++ ") already exists.") := by
    apply string_data_inj
    simp [pgUniqueRest, string_data_append, List.append_assoc]
  have hpk : containsSub (pgUniqueRest "id" X).data "(id)=".data = true := by
    rw [containsSub_iff, hshape, string_data_append]
    exact ⟨[], ("(" ++ X ++ ") already exists.").data, by simp⟩
  refine ⟨?_, ?_⟩
  · simp [translate_unique, hstrip, hpk]
  · rw [containsSub_iff]
    have hshape2 : (pgUniqueRest "id" X).data =
        "(id)=(".data ++ X.data ++ ") already exists.".data := by
      rw [hshape]
      simp [string_data_append, List.append_assoc]
    exact ⟨"(id)=(".data, ") already exists.".data, by rw [hshape2]⟩

/-- A unique violation on a non-primary-key column translates into
UniqueKeyError, provided the stripped detail does not contain the substring
"(id)=" (the classification is a substring heuristic). -/
theorem translate_unique_nonpk (c v : String)
    (hocc : containsSub (pgUniqueRest c v).data "Key ".data = false)
    (hni : containsSub (pgUniqueRest c v).data "(id)=".data = false) :
    translate_unique (pgUniqueDetail c v) = Err.uniqueKeyError (pgUniqueRest c v) := by
  have hocc' : ¬ List.IsInfix "Key ".data (pgUniqueRest c v).data := by
    intro h
    rw [(containsSub_iff _ _).2 h] at hocc
    exact Bool.noConfusion hocc
  have hstrip : pyReplace (pgUniqueDetail c v) "Key " "" = pgUniqueRest c v :=
    pyReplace_strip _ hocc'
  simp [translate_unique, hstrip, hni]

/-- The session actions an operation issues, in order.  `commit` records a
commit attempt (the attempt itself may be what surfaces the engine
failure). -/
inductive Act where
  | addObj
  | execStmt
  | commit
  | rollback
  | refresh
deriving DecidableEq, Repr

/-- Embedding of the app-variant CreateMixin.async_insert
(src/app/src/databases/rdb/mixins/create.py, lines 36-52): add the object,
commit when auto_commit; a duplicate primary key surfaces as IntegrityError
at commit, and the dedicated `except IntegrityError` branch logs a warning
and re-raises immediately — without issuing a rollback; only the generic
`except Exception` branch rolls back. -/
def async_insert_app (db : List Row) (r : Row) (autoCommit : Bool) :
    List Act × Except Err (List Row) :=
  if autoCommit then
    if decide (r.id ∈ db.map Row.id) then
      ([Act.addObj, Act.commit], Except.error Err.integrityError)
    else
      ([Act.addObj, Act.commit, Act.refresh], Except.ok (db ++ [r]))
  else ([Act.addObj], Except.ok db)

/-- Embedding of the api-core AsyncCreateMixin.async_insert in statement
mode (src/{{cookiecutter.project_slug}}/src/api/core/models/mixins/async_/
_create.py, lines 102-137): execute the INSERT; a duplicate primary key
surfaces as IntegrityError carrying a UniqueViolation, the except block
first rolls back (when auto_commit) and then raises the translated error. -/
def async_insert_api (db : List Row) (r : Row) (autoCommit : Bool) :
    List Act × Except Err (List Row) :=
  if decide (r.id ∈ db.map Row.id) then
    ((if autoCommit then [Act.execStmt, Act.rollback] else [Act.execStmt]),
      Except.error (translate_unique (pgUniqueDetail "id" r.id)))
  else
    ((if autoCommit then [Act.execStmt, Act.commit] else [Act.execStmt]),
      Except.ok (db ++ [r]))

/-- Counterexample to C5 as stated: the app-variant async_insert, called
with auto_commit=true on a duplicate id, raises the integrity error without
ever issuing a rollback — its `except IntegrityError` branch re-raises
before the rollback-carrying generic handler is reached. -/
theorem insert_rollback_counterexample :
    (async_insert_app [⟨"A", "x", 0⟩] ⟨"A", "y", 1⟩ true).1 =
        [Act.addObj, Act.commit] ∧
      Act.rollback ∉ (async_insert_app [⟨"A", "x", 0⟩] ⟨"A", "y", 1⟩ true).1 ∧
      (async_insert_app [⟨"A", "x", 0⟩] ⟨"A", "y", 1⟩ true).2 =
        Except.error Err.integrityError := by
  refine ⟨by decide, by decide, by decide⟩

/-- C5 (amended): for insert with auto_commit=true failing on an
integrity/constraint violation, the api-core variant issues a rollback
before raising the translated error; the app variant, however, re-raises
the IntegrityError without a rollback (its dedicated except branch precedes
the rollback-carrying generic handler). -/
theorem insert_rollback_amended (db : List Row) (r : Row)
    (hconf : r.id ∈ db.map Row.id) :
    ((async_insert_api db r true).1 = [Act.execStmt, Act.rollback] ∧
      (async_insert_api db r true).2 =
        Except.error (translate_unique (pgUniqueDetail "id" r.id))) ∧
      (Act.rollback ∉ (async_insert_app db r true).1 ∧
        (async_insert_app db r true).2 = Except.error Err.integrityError) := by
  have hex : ∃ a ∈ db, a.id = r.id := by simpa using hconf
  refine ⟨⟨?_, ?_⟩, ?_, ?_⟩ <;> simp [async_insert_api, async_insert_app, hex]

/-- Witness for C5 (amended): a duplicate-id insert. -/
theorem insert_rollback_amended_witness :
    ((async_insert_api [⟨"A", "x", 0⟩] ⟨"A", "y", 1⟩ true).1 =
        [Act.execStmt, Act.rollback] ∧
      (async_insert_api [⟨"A", "x", 0⟩] ⟨"A", "y", 1⟩ true).2 =
        Except.error (translate_unique (pgUniqueDetail "id" "A"))) ∧
      (Act.rollback ∉ (async_insert_app [⟨"A", "x", 0⟩] ⟨"A", "y", 1⟩ true).1 ∧
        (async_insert_app [⟨"A", "x", 0⟩] ⟨"A", "y", 1⟩ true).2 =
          Except.error Err.integrityError) :=
  insert_rollback_amended [⟨"A", "x", 0⟩] ⟨"A", "y", 1⟩ (by decide)

/-- Counterexample to C9 as stated: a unique violation on the non-primary-
key column "name" whose conflicting value contains the text "(id)=" is
classified by the substring heuristic as a primary-key violation, not as
the UniqueConstraintViolation the claim promises for every non-PK
uniqueness failure. -/
theorem unique_translation_counterexample :
    translate_unique (pgUniqueDetail "name" "(id)=o") =
      Err.primaryKeyError (pgUniqueRest "name" "(id)=o") := by
  decide

/-- C9 (amended): inserting an explicit id that already exists raises
PrimaryKeyError (not the generic UniqueKeyError) and its detail references
the conflicting id; a uniqueness failure on a non-primary-key column is
translated into UniqueKeyError provided the stripped detail does not
contain the substring "(id)=" — the classification is a substring match,
so a conflicting value containing "(id)=" is misclassified. -/
theorem insert_constraint_translation (db : List Row) (r : Row) (c v : String)
    (hconf : r.id ∈ db.map Row.id)
    (hocc1 : containsSub (pgUniqueRest "id" r.id).data "Key ".data = false)
    (hocc2 : containsSub (pgUniqueRest c v).data "Key ".data = false)
    (hni : containsSub (pgUniqueRest c v).data "(id)=".data = false) :
    ((async_insert_api db r true).2 =
        Except.error (Err.primaryKeyError (pgUniqueRest "id" r.id)) ∧
      containsSub (pgUniqueRest "id" r.id).data r.id.data = true) ∧
      translate_unique (pgUniqueDetail c v) =
        Err.uniqueKeyError (pgUniqueRest c v) := by
  obtain ⟨hpk, href⟩ := translate_unique_pk r.id hocc1
  have hex : ∃ a ∈ db, a.id = r.id := by simpa using hconf
  refine ⟨⟨?_, href⟩, translate_unique_nonpk c v hocc2 hni⟩
  simp [async_insert_api, hex, hpk]

/-- Witness for C9 (amended): a duplicate id "tas1" and a unique "name"
column conflict on value "A". -/
theorem insert_constraint_translation_witness :
    ((async_insert_api [⟨"tas1", "x", 0⟩] ⟨"tas1", "y", 1⟩ true).2 =
        Except.error (Err.primaryKeyError (pgUniqueRest "id" "tas1")) ∧
      containsSub (pgUniqueRest "id" "tas1").data "tas1".data = true) ∧
      translate_unique (pgUniqueDetail "name" "A") =
        Err.uniqueKeyError (pgUniqueRest "name" "A") :=
  insert_constraint_translation [⟨"tas1", "x", 0⟩] ⟨"tas1", "y", 1⟩ "name" "A"
    (by decide) (by decide) (by decide) (by decide)

/-- One hexadecimal digit, lowercase (the hex encoding a UUID uses). -/
def hexDigit (d : Nat) : Char :=
  if d < 10 then Char.ofNat (48 + d) else Char.ofNat (87 + d)

/-- Fixed-width little-endian base-16 digits of a number. -/
def digitsFix : Nat → Nat → List Nat
  | 0, _ => []
  | k + 1, e => (e % 16) :: digitsFix k (e / 16)

/-- The 32 hex characters encoding 128 bits of entropy (a UUID with the
dashes removed, zero-padded to full width). -/
def hexChars32 (e : Nat) : List Char :=
  ((digitsFix 32 e).reverse).map hexDigit

/-- Modelled from the spec: `utils.gen_unique_id(prefix)` — the identifier
generator whose implementing module is not among the provided sources (only
its callers `BaseMixin.gen_unique_id` and `create_unique_id` are).  Per the
spec it concatenates (a) the case-normalized first three characters of the
entity type's name, (b) the current Unix epoch time in seconds, (c) a
separator, (d) 128 bits of random entropy encoded as hex; the in-source SQL
function fn_tr__generate_pk builds the same shape:
`lower(substr(table_name, 5, 3)) || epoch || '_' || replace(uuid, '-', '')`.
The clock and the entropy source are explicit arguments. -/
def gen_unique_id (typeName : String) (epoch : Nat) (entropy : Nat) : List Char :=
  (typeName.data.take 3).map Char.toLower ++ Nat.toDigits 10 epoch
    ++ '_' :: hexChars32 entropy

theorem digitsFix_length (k : Nat) : ∀ e, (digitsFix k e).length = k := by
  induction k with
  | zero => intro e; rfl
  | succ n ih =>
    intro e
    simp [digitsFix, ih]

theorem digitsFix_lt (k : Nat) : ∀ e, ∀ d ∈ digitsFix k e, d < 16 := by
  induction k with
  | zero =>
    intro e d hd
    simp [digitsFix] at hd
  | succ n ih =>
    intro e d hd
    rcases List.mem_cons.1 hd with h | h
    · omega
    · exact ih (e / 16) d h

theorem digitsFix_inj (k : Nat) :
    ∀ e₁ e₂, e₁ < 16 ^ k → e₂ < 16 ^ k → digitsFix k e₁ = digitsFix k e₂ → e₁ = e₂ := by
  induction k with
  | zero =>
    intro e₁ e₂ h1 h2 _
    simp [pow_zero] at h1 h2
    omega
  | succ n ih =>
    intro e₁ e₂ h1 h2 heq
    simp only [digitsFix, List.cons.injEq] at heq
    have hd1 : e₁ / 16 < 16 ^ n := by
      rw [Nat.div_lt_iff_lt_mul (by norm_num)]
      calc e₁ < 16 ^ (n + 1) := h1
        _ = 16 ^ n * 16 := by ring
    have hd2 : e₂ / 16 < 16 ^ n := by
      rw [Nat.div_lt_iff_lt_mul (by norm_num)]
      calc e₂ < 16 ^ (n + 1) := h2
        _ = 16 ^ n * 16 := by ring
    have hq := ih (e₁ / 16) (e₂ / 16) hd1 hd2 heq.2
    omega

theorem hexDigit_inj_on : ∀ d₁ < 16, ∀ d₂ < 16, hexDigit d₁ = hexDigit d₂ → d₁ = d₂ := by
  decide

theorem map_hexDigit_inj {l₁ l₂ : List Nat} (h1 : ∀ d ∈ l₁, d < 16)
    (h2 : ∀ d ∈ l₂, d < 16) (heq : l₁.map hexDigit = l₂.map hexDigit) : l₁ = l₂ := by
  induction l₁ generalizing l₂ with
  | nil =>
    cases l₂ with
    | nil => rfl
    | cons b t => simp at heq
  | cons a t ih =>
    cases l₂ with
    | nil => simp at heq
    | cons b t' =>
      simp only [List.map_cons, List.cons.injEq] at heq
      have ha : a = b :=
        hexDigit_inj_on a (h1 a (List.mem_cons_self _ _)) b
          (h2 b (List.mem_cons_self _ _)) heq.1
      have ht : t = t' :=
        ih (fun d hd => h1 d (List.mem_cons_of_mem _ hd))
          (fun d hd => h2 d (List.mem_cons_of_mem _ hd)) heq.2
      rw [ha, ht]

theorem hexChars32_length (e : Nat) : (hexChars32 e).length = 32 := by
  simp [hexChars32, digitsFix_length]

theorem hexChars32_inj {e₁ e₂ : Nat} (h1 : e₁ < 16 ^ 32) (h2 : e₂ < 16 ^ 32)
    (heq : hexChars32 e₁ = hexChars32 e₂) : e₁ = e₂ := by
  unfold hexChars32 at heq
  have hrev : (digitsFix 32 e₁).reverse = (digitsFix 32 e₂).reverse :=
    map_hexDigit_inj
      (fun d hd => digitsFix_lt 32 e₁ d (List.mem_reverse.1 hd))
      (fun d hd => digitsFix_lt 32 e₂ d (List.mem_reverse.1 hd)) heq
  exact digitsFix_inj 32 e₁ e₂ h1 h2 (List.reverse_injective hrev)

/-- C7: every generated identifier is the concatenation of the
case-normalized three-character type prefix, the epoch seconds, a
separator, and 128 bits of entropy as hex; hence it starts with the
expected 3-character prefix (whenever the type name has at least three
characters), and two generations with distinct entropy are distinct —
whatever the clock read each time. -/
theorem gen_unique_id_spec (typeName : String) (ts₁ ts₂ e₁ e₂ : Nat)
    (hlen : 3 ≤ typeName.data.length)
    (he₁ : e₁ < 16 ^ 32) (he₂ : e₂ < 16 ^ 32) (hne : e₁ ≠ e₂) :
    gen_unique_id typeName ts₁ e₁ =
        (typeName.data.take 3).map Char.toLower ++ Nat.toDigits 10 ts₁
          ++ '_' :: hexChars32 e₁ ∧
      (gen_unique_id typeName ts₁ e₁).take 3 =
        (typeName.data.take 3).map Char.toLower ∧
      gen_unique_id typeName ts₁ e₁ ≠ gen_unique_id typeName ts₂ e₂ := by
  refine ⟨rfl, ?_, ?_⟩
  · have hplen : ((typeName.data.take 3).map Char.toLower).length = 3 := by
      rw [List.length_map, List.length_take]
      omega
    rw [gen_unique_id, List.append_assoc]
    exact List.take_left' hplen
  · intro heq
    apply hne
    apply hexChars32_inj he₁ he₂
    have hkey : ∀ ts e, gen_unique_id typeName ts e =
        ((typeName.data.take 3).map Char.toLower ++ Nat.toDigits 10 ts ++ ['_'])
          ++ hexChars32 e := by
      intro ts e
      simp [gen_unique_id]
    rw [hkey ts₁ e₁, hkey ts₂ e₂] at heq
    have hrev := congrArg List.reverse heq
    simp only [List.reverse_append] at hrev
    have htake := congrArg (List.take 32) hrev
    have hl1 : (hexChars32 e₁).reverse.length = 32 := by
      simp [hexChars32_length]
    have hl2 : (hexChars32 e₂).reverse.length = 32 := by
      simp [hexChars32_length]
    rw [← hl1, List.take_left] at htake
    rw [hl1, ← hl2, List.take_left] at htake
    exact List.reverse_injective htake

/-- Witness for C7: the type name "Task" with entropy 0 and 1. -/
theorem gen_unique_id_spec_witness :
    gen_unique_id "Task" 1700000000 0 =
        ("Task".data.take 3).map Char.toLower ++ Nat.toDigits 10 1700000000
          ++ '_' :: hexChars32 0 ∧
      (gen_unique_id "Task" 1700000000 0).take 3 =
        ("Task".data.take 3).map Char.toLower ∧
      gen_unique_id "Task" 1700000000 0 ≠ gen_unique_id "Task" 1700000001 1 :=
  gen_unique_id_spec "Task" 1700000000 1700000001 0 1 (by decide)
    (by norm_num) (by norm_num) (by decide)

/-- Embedding of AsyncCreateMixin.async_upsert in statement mode
(orm_way=False, PostgreSQL path): after the kwargs check, an id is
generated when the caller supplied none; `_update_set` is kwargs minus the
"id" key (the statement builder rejects an empty update set), and the
statement is `INSERT ... ON CONFLICT (id) DO UPDATE SET _update_set`.  On a
fresh id the INSERT must satisfy the NOT NULL constraint on `name` (the
`point` column carries server_default 0); on a conflicting id the non-id
fields are assigned, exactly as the instance-mode field loop does. -/
def async_upsert (db : List Row) (u : UpdData) (genId : String) :
    Except Err (List Row) :=
  if u.isEmpty then Except.error Err.emptyValueError
  else
    let idv := u.idv.getD genId
    if u.namev = none ∧ u.pointv = none then
      Except.error (Err.valueError "on_conflict_do_update requires a non-empty set")
    else if decide (idv ∈ db.map Row.id) then
      Except.ok (db.map (fun r => if r.id = idv then applyInstance u r else r))
    else
      match u.namev with
      | none => Except.error (Err.nullConstraintError "name")
      | some nm => Except.ok (db ++ [⟨idv, nm, u.pointv.getD 0⟩])

theorem applyInstance_idem (u : UpdData) (r : Row) :
    applyInstance u (applyInstance u r) = applyInstance u r := by
  cases hn : u.namev <;> cases hp : u.pointv <;> simp [applyInstance, hn, hp]

/-- On a conflicting explicit id, upsert reduces to the DO UPDATE branch. -/
theorem async_upsert_update_branch (db : List Row) (u : UpdData) (g : String)
    (X : String) (hid : u.idv = some X)
    (hset : ¬ (u.namev = none ∧ u.pointv = none))
    (hmem : ∃ a ∈ db, a.id = X) :
    async_upsert db u g =
      Except.ok (db.map (fun r => if r.id = X then applyInstance u r else r)) := by
  have hne : u.isEmpty = false := by simp [UpdData.isEmpty, hid]
  simp [async_upsert, hne, hid, hset, hmem]

/-- In a table with duplicate-free ids, an id that occurs at all occurs in
exactly one row. -/
theorem filter_id_singleton (X : String) :
    ∀ (l : List Row), (l.map Row.id).Nodup → X ∈ l.map Row.id →
      (l.filter (fun r => decide (r.id = X))).length = 1 := by
  intro l
  induction l with
  | nil =>
    intro _ h
    simp at h
  | cons a t ih =>
    intro hnd hmem
    simp only [List.map_cons, List.nodup_cons] at hnd
    by_cases ha : a.id = X
    · have hnone : ∀ r ∈ t, ¬ decide (r.id = X) = true := by
        intro r hr hX
        apply hnd.1
        rw [ha]
        exact (of_decide_eq_true hX) ▸ List.mem_map_of_mem Row.id hr
      rw [List.filter_cons_of_pos (by simpa using ha),
        List.filter_eq_nil.2 hnone]
      rfl
    · rw [List.filter_cons_of_neg (by simpa using ha)]
      apply ih hnd.2
      rcases List.mem_cons.1 (by simpa using hmem : X ∈ a.id :: t.map Row.id) with h | h
      · exact absurd h.symm ha
      · exact h

/-- C8: upsert is idempotent — when a first upsert with an explicit id X
succeeds on a table with duplicate-free ids, repeating it with the same
field map returns the same state unchanged, and that state holds exactly
one row with id X, whose fields carry the supplied values. -/
theorem upsert_idempotent (db db₁ : List Row) (X : String) (u : UpdData)
    (g₁ g₂ : String) (hid : u.idv = some X)
    (hids : (db.map Row.id).Nodup)
    (h1 : async_upsert db u g₁ = Except.ok db₁) :
    async_upsert db₁ u g₂ = Except.ok db₁ ∧
      (db₁.filter (fun r => decide (r.id = X))).length = 1 ∧
      ∀ r ∈ db₁, r.id = X →
        (∀ nm, u.namev = some nm → r.name = nm) ∧
        (∀ p, u.pointv = some p → r.point = p) := by
  have hne : u.isEmpty = false := by simp [UpdData.isEmpty, hid]
  by_cases hset : u.namev = none ∧ u.pointv = none
  · simp [async_upsert, hne, hid, hset] at h1
  by_cases hmem : ∃ a ∈ db, a.id = X
  · -- first call took the DO UPDATE branch
    have hdb₁ : db₁ =
        db.map (fun r => if r.id = X then applyInstance u r else r) := by
      rw [async_upsert_update_branch db u g₁ X hid hset hmem] at h1
      exact (Except.ok.inj h1).symm
    have hidpres : db₁.map Row.id = db.map Row.id := by
      rw [hdb₁, List.map_map]
      refine List.map_congr_left ?_
      intro r _
      by_cases hr : r.id = X <;> simp [hr, applyInstance]
    have hids₁ : (db₁.map Row.id).Nodup := by
      rw [hidpres]
      exact hids
    have hmem₁ : ∃ a ∈ db₁, a.id = X := by
      rcases hmem with ⟨a, hain, haid⟩
      refine ⟨applyInstance u a, ?_, haid⟩
      rw [hdb₁]
      have hcond : (if a.id = X then applyInstance u a else a) = applyInstance u a :=
        if_pos haid
      exact hcond ▸ List.mem_map_of_mem _ hain
    refine ⟨?_, ?_, ?_⟩
    · rw [async_upsert_update_branch db₁ u g₂ X hid hset hmem₁]
      congr 1
      rw [hdb₁, List.map_map]
      refine List.map_congr_left ?_
      intro r _
      show (if (if r.id = X then applyInstance u r else r).id = X then
          applyInstance u (if r.id = X then applyInstance u r else r)
        else (if r.id = X then applyInstance u r else r)) =
          (if r.id = X then applyInstance u r else r)
      by_cases hr : r.id = X
      · rw [if_pos hr, if_pos (show (applyInstance u r).id = X from hr),
          applyInstance_idem]
      · rw [if_neg hr, if_neg hr]
    · apply filter_id_singleton X db₁ hids₁
      rcases hmem₁ with ⟨a, hain, haid⟩
      exact haid ▸ List.mem_map_of_mem Row.id hain
    · intro r hr hrX
      rw [hdb₁] at hr
      rcases List.mem_map.1 hr with ⟨r₀, hr₀, hr₀eq⟩
      by_cases h0 : r₀.id = X
      · rw [if_pos h0] at hr₀eq
        subst hr₀eq
        constructor
        · intro nm hnm
          simp [applyInstance, hnm]
        · intro p hp
          simp [applyInstance, hp]
      · rw [if_neg h0] at hr₀eq
        subst hr₀eq
        exact absurd hrX h0
  · -- first call took the INSERT branch
    rcases hnm : u.namev with _ | nm
    · have hp : ¬ u.pointv = none := fun h => hset ⟨hnm, h⟩
      simp [async_upsert, hne, hid, hset, hmem, hnm, hp] at h1
    have hdb₁ : db₁ = db ++ [⟨X, nm, u.pointv.getD 0⟩] := by
      simp [async_upsert, hne, hid, hset, hmem, hnm] at h1
      exact h1.symm
    have hXfree : ∀ r ∈ db, r.id ≠ X := by
      intro r hr hX
      exact hmem ⟨r, hr, hX⟩
    have hids₁ : (db₁.map Row.id).Nodup := by
      rw [hdb₁]
      simp only [List.map_append, List.map_cons, List.map_nil]
      rw [List.nodup_append]
      refine ⟨hids, List.nodup_singleton X, ?_⟩
      intro y hy
      rcases List.mem_map.1 hy with ⟨r, hrin, hrid⟩
      simp only [List.mem_singleton]
      intro hyx
      exact hXfree r hrin (by rw [hrid, hyx])
    have hmem₁ : ∃ a ∈ db₁, a.id = X := by
      refine ⟨⟨X, nm, u.pointv.getD 0⟩, ?_, rfl⟩
      rw [hdb₁]
      exact List.mem_append_right _ (List.mem_singleton.2 rfl)
    refine ⟨?_, ?_, ?_⟩
    · rw [async_upsert_update_branch db₁ u g₂ X hid hset hmem₁]
      congr 1
      have hfix : ∀ r ∈ db₁, (if r.id = X then applyInstance u r else r) = r := by
        intro r hr
        rw [hdb₁] at hr
        rcases List.mem_append.1 hr with h | h
        · rw [if_neg (hXfree r h)]
        · rw [List.mem_singleton.1 h]
          cases hp : u.pointv <;> simp [applyInstance, hnm, hp]
      calc db₁.map (fun r => if r.id = X then applyInstance u r else r)
          = db₁.map (fun r => r) := List.map_congr_left hfix
        _ = db₁ := List.map_id' db₁
    · apply filter_id_singleton X db₁ hids₁
      rcases hmem₁ with ⟨a, hain, haid⟩
      exact haid ▸ List.mem_map_of_mem Row.id hain
    · intro r hr hrX
      rw [hdb₁] at hr
      rcases List.mem_append.1 hr with h | h
      · exact absurd hrX (hXfree r h)
      · rw [List.mem_singleton.1 h]
        constructor
        · intro nm' hnm'
          exact Option.some.inj hnm'
        · intro p hp
          simp [hp]

/-- Witness for C8: upserting point 10 onto an existing row twice. -/
theorem upsert_idempotent_witness :
    async_upsert [⟨"X", "t", 10⟩] ⟨some "X", none, some 10⟩ "g" =
        Except.ok [⟨"X", "t", 10⟩] ∧
      (([⟨"X", "t", 10⟩] : List Row).filter (fun r => decide (r.id = "X"))).length = 1 ∧
      ∀ r ∈ ([⟨"X", "t", 10⟩] : List Row), r.id = "X" →
        (∀ nm, (none : Option String) = some nm → r.name = nm) ∧
        (∀ p, (some (10 : Int)) = some p → r.point = p) :=
  upsert_idempotent [⟨"X", "t", 5⟩] [⟨"X", "t", 10⟩] "X" ⟨some "X", none, some 10⟩
    "g" "g" rfl (by decide) (by decide)
